import Mathlib

/-!
Verification of the process lifecycle and launch-safety subsystem of the
Velocity launcher (src/src/main.ts).

Strings from the JavaScript source are modelled as lists of characters
(`JStr`), so that the character-level operations of the source
(`String.prototype.split`, `trim`, `toLowerCase`, `endsWith`, `includes`,
regular-expression tests on fixed patterns, and Node's `path.normalize`)
can be given as executable Lean functions.  The Electron/Node environment
(file system, `child_process.spawn`, window liveness) enters as explicit
parameters, and the mutable module-level state of main.ts
(`launchedProcesses`, `runningEmulators`, the renderer notifications) is
threaded as an explicit state record.
-/

namespace Velocity

/-- JavaScript strings, modelled as lists of characters. -/
abbrev JStr := List Char

/-- The white-space characters recognised by `String.prototype.trim`
(ASCII white space, NBSP, the Unicode space separators and the
line/paragraph separators, and the BOM). -/
def isJsWhitespace (c : Char) : Bool :=
  c = ' ' || c = '\t' || c = '\n' || c = '\r' ||
  c = Char.ofNat 11 || c = Char.ofNat 12 || c = Char.ofNat 160 ||
  c = Char.ofNat 0x1680 ||
  (Char.ofNat 0x2000 ≤ c && c ≤ Char.ofNat 0x200a) ||
  c = Char.ofNat 0x2028 || c = Char.ofNat 0x2029 ||
  c = Char.ofNat 0x202f || c = Char.ofNat 0x205f ||
  c = Char.ofNat 0x3000 || c = Char.ofNat 0xfeff

/-- Drop trailing white space, the second half of `String.prototype.trim`. -/
def dropTrailingWs (s : JStr) : JStr :=
  ((s.reverse).dropWhile isJsWhitespace).reverse

/-- `String.prototype.trim`: drop leading and trailing white space. -/
def jsTrim (s : JStr) : JStr :=
  dropTrailingWs (s.dropWhile isJsWhitespace)

/-- `String.prototype.toLowerCase`, restricted to the alphabets the source
compares against (ASCII). -/
def jsToLower (s : JStr) : JStr := s.map Char.toLower

/-- `String.prototype.split(" ")`: split on every occurrence of the single
space character, keeping empty pieces.  `splitOnSpace [] = [[]]`, matching
`"".split(" ") = [""]` in JavaScript. -/
def splitOnSpace (s : JStr) : List JStr :=
  s.foldr
    (fun c acc =>
      if c = ' ' then [] :: acc else acc.modifyHead (fun t => c :: t))
    [[]]

/-- Whether `pat` is a prefix of `s` (character-wise). -/
def hasPrefixCh : JStr → JStr → Bool
  | [], _ => true
  | _ :: _, [] => false
  | p :: ps, c :: cs => p = c && hasPrefixCh ps cs

/-- Whether `pat` occurs as a contiguous substring of `s`
(`String.prototype.includes`). -/
def containsSub (pat : JStr) : JStr → Bool
  | [] => hasPrefixCh pat []
  | c :: cs => hasPrefixCh pat (c :: cs) || containsSub pat cs

/-- Whether `pat` is a suffix of `s` (`String.prototype.endsWith`). -/
def hasSuffixCh (pat s : JStr) : Bool :=
  hasPrefixCh pat.reverse s.reverse

/-- The character class `[;&|` `$(){}[\]<>]` of the first entry of
`dangerousPatterns` in main.ts (shell metacharacters).  The backtick and
the braces are written via their code points. -/
def isShellMetaChar (c : Char) : Bool :=
  c = ';' || c = '&' || c = '|' || c = Char.ofNat 96 || c = '$' ||
  c = '(' || c = ')' || c = Char.ofNat 123 || c = Char.ofNat 125 ||
  c = '[' || c = ']' || c = '<' || c = '>'

/-- The `dangerousPatterns` test of `sanitizeArguments` (main.ts lines
77-91): shell metacharacters, the case-insensitive anchored execution-flag
pattern `^-{1,2}exec`, the traversal substrings `../` and `..\`, the
case-insensitive substrings `cmd`, `powershell`, `bash`, and the
case-insensitive suffix `sh`. -/
def isDangerousArg (arg : JStr) : Bool :=
  let lower := jsToLower arg
  arg.any isShellMetaChar ||
  hasPrefixCh (String.toList "-exec") lower ||
  hasPrefixCh (String.toList "--exec") lower ||
  containsSub (String.toList "../") arg ||
  containsSub (String.toList "..\\") arg ||
  containsSub (String.toList "cmd") lower ||
  containsSub (String.toList "powershell") lower ||
  containsSub (String.toList "bash") lower ||
  hasSuffixCh (String.toList "sh") lower

/-- `sanitizeArguments` from main.ts lines 67-93: the falsy guard on the
input, then split on the space character, trim every piece, drop empty
pieces, drop pieces matching `dangerousPatterns`, and keep at most the
first 50 (`slice(0, 50)`). -/
def sanitizeArguments (args : JStr) : List JStr :=
  if args = [] then []
  else
    (((((splitOnSpace args).map jsTrim).filter
          (fun arg => decide (0 < arg.length))).filter
          (fun arg => !isDangerousArg arg)).take 50)

/-- `Array.prototype.join(" ")`: rejoin a token list with single spaces. -/
def joinSpace : List JStr → JStr
  | [] => []
  | [t] => t
  | t :: t2 :: ts => t ++ ' ' :: joinSpace (t2 :: ts)

/-- Split on every JavaScript white-space character.  This is the
sanitizer front end as claim C7 words it ("splits on whitespace"); the
source splits on the space character only. -/
def splitOnJsWs (s : JStr) : List JStr :=
  s.foldr
    (fun c acc =>
      if isJsWhitespace c then [] :: acc
      else acc.modifyHead (fun t => c :: t))
    [[]]

/-- The sanitizer as claim C7 states it: split on whitespace, trim, drop
empty tokens, drop denylisted tokens, cap at 50 tokens. -/
def sanitizeArgumentsClaimC7 (args : JStr) : List JStr :=
  (((((splitOnJsWs args).map jsTrim).filter
        (fun arg => decide (0 < arg.length))).filter
        (fun arg => !isDangerousArg arg)).take 50)

/-- The sanitizer as the amended claim C7 states it: split on the space
character (U+0020), trim, drop empty tokens, drop denylisted tokens, cap
at 50 tokens. -/
def sanitizeArgumentsSpaceSpec (args : JStr) : List JStr :=
  (((((splitOnSpace args).map jsTrim).filter
        (fun arg => decide (0 < arg.length))).filter
        (fun arg => !isDangerousArg arg)).take 50)

/-! ### Node's `path.normalize`

main.ts calls `path.normalize` before checking the normalized path for the
substring `".."`.  Node's normalization resolves `.` and `..` segments:
the shared core `normalizeString` walks the separator-delimited segments,
dropping empty and `.` segments, popping a previous segment on `..`, and
keeping a leading run of `..` only for relative paths
(`allowAboveRoot`). -/

/-- The platform the `path` module is specialised to.  `win32` treats both
`/` and `\` as separators, `posix` only `/`. -/
inductive Platform where
  | win32 : Platform
  | posix : Platform
deriving DecidableEq, Repr

/-- Path-separator test of the `path` module. -/
def isPathSep : Platform → Char → Bool
  | .win32, c => c = '/' || c = '\\'
  | .posix, c => c = '/'

/-- Split a path into its separator-delimited segments (empty segments
included, as produced by leading, trailing or doubled separators). -/
def splitSeps (p : Platform) : JStr → List JStr
  | [] => [[]]
  | c :: cs =>
    match splitSeps p cs with
    | [] => [[]]
    | t :: ts => if isPathSep p c then [] :: t :: ts else (c :: t) :: ts

/-- One step of Node's `normalizeString` segment resolution, acting on the
stack of already-resolved segments (most recent first): empty and `.`
segments are dropped; `..` pops the previous segment unless it is itself a
kept `..`, and is kept only when `allowAboveRoot` is set. -/
def normStep (allowAboveRoot : Bool) (stack : List JStr) (seg : JStr) :
    List JStr :=
  if seg = [] || seg = ['.'] then stack
  else if seg = ['.', '.'] then
    match stack with
    | [] => if allowAboveRoot then [['.', '.']] else []
    | top :: rest =>
      if top = ['.', '.'] then
        (if allowAboveRoot then ['.', '.'] :: top :: rest else top :: rest)
      else rest
  else seg :: stack

/-- Join segments with a separator character (`Array.prototype.join`). -/
def joinWith (sep : Char) : List JStr → JStr
  | [] => []
  | [t] => t
  | t :: t2 :: ts => t ++ sep :: joinWith sep (t2 :: ts)

/-- Node's `normalizeString`: resolve `.` and `..` segments of `s` and
rejoin the survivors with `sep`. -/
def normalizeString (p : Platform) (allowAboveRoot : Bool) (s : JStr)
    (sep : Char) : JStr :=
  joinWith sep (((splitSeps p s).foldl (normStep allowAboveRoot) []).reverse)

/-- `path.posix.normalize`. -/
def posixNormalize (s : JStr) : JStr :=
  match s with
  | [] => ['.']
  | c :: cs =>
    let isAbs : Bool := c = '/'
    let trailing : Bool := (c :: cs).getLast? = some '/'
    let t := normalizeString .posix (!isAbs) (c :: cs) '/'
    if t = [] then
      if isAbs then ['/'] else if trailing then ['.', '/'] else ['.']
    else
      let t2 := if trailing then t ++ ['/'] else t
      if isAbs then '/' :: t2 else t2

/-- Drive-letter test of `path.win32` (`isWindowsDeviceRoot`). -/
def isWinDeviceRoot (c : Char) : Bool :=
  ('A' ≤ c && c ≤ 'Z') || ('a' ≤ c && c ≤ 'z')

/-- The tail end of `path.win32.normalize`, shared by all the root-parsing
branches: normalize the part after the root, re-insert `.` for an empty
relative result, restore a trailing separator, and reattach the device
and/or the absolute marker. -/
def win32Finish (device : Option JStr) (isAbs : Bool) (remainder : JStr)
    (orig : JStr) : JStr :=
  let tail0 :=
    if remainder = [] then []
    else normalizeString .win32 (!isAbs) remainder '\\'
  let tail1 := if tail0 = [] && !isAbs then ['.'] else tail0
  let endsSep :=
    match orig.getLast? with
    | some c => isPathSep .win32 c
    | none => false
  let tail2 := if tail1 ≠ [] && endsSep then tail1 ++ ['\\'] else tail1
  match device with
  | none => if isAbs then '\\' :: tail2 else tail2
  | some d => if isAbs then d ++ '\\' :: tail2 else d ++ tail2

/-- `path.win32.normalize`: parse a root (separator, UNC share, or drive
letter with optional separator), then resolve the rest with
`normalizeString`. -/
def win32Normalize (s : JStr) : JStr :=
  match s with
  | [] => ['.']
  | [c] => if c = '/' then ['\\'] else [c]
  | c0 :: c1 :: rest =>
    if isPathSep .win32 c0 then
      if isPathSep .win32 c1 then
        let firstPart := rest.takeWhile (fun c => !isPathSep .win32 c)
        let r1 := rest.dropWhile (fun c => !isPathSep .win32 c)
        if firstPart ≠ [] && r1 ≠ [] then
          let r2 := r1.dropWhile (isPathSep .win32)
          if r2 ≠ [] then
            let second := r2.takeWhile (fun c => !isPathSep .win32 c)
            let r3 := r2.dropWhile (fun c => !isPathSep .win32 c)
            if r3 = [] then
              '\\' :: '\\' :: (firstPart ++ '\\' :: (r2 ++ ['\\']))
            else
              win32Finish
                (some ('\\' :: '\\' :: (firstPart ++ '\\' :: second)))
                true r3 (c0 :: c1 :: rest)
          else win32Finish none true (c0 :: c1 :: rest) (c0 :: c1 :: rest)
        else win32Finish none true (c0 :: c1 :: rest) (c0 :: c1 :: rest)
      else win32Finish none true (c1 :: rest) (c0 :: c1 :: rest)
    else if isWinDeviceRoot c0 && c1 = ':' then
      match rest with
      | [] => win32Finish (some [c0, ':']) false [] (c0 :: c1 :: rest)
      | c2 :: rest2 =>
        if isPathSep .win32 c2 then
          win32Finish (some [c0, ':']) true rest2 (c0 :: c1 :: rest)
        else
          win32Finish (some [c0, ':']) false (c2 :: rest2) (c0 :: c1 :: rest)
    else win32Finish none false (c0 :: c1 :: rest) (c0 :: c1 :: rest)

/-- `path.normalize` of the platform the process runs on. -/
def pathNormalize : Platform → JStr → JStr
  | .win32 => win32Normalize
  | .posix => posixNormalize

/-! ### The security validators of main.ts -/

/-- The file-system facts the validators consult: `fs.existsSync` and the
`isFile`/`isDirectory` results of `fs.statSync`.  A `statSync` throw is
absorbed by the surrounding `try`/`catch` into a `false` result, which is
observationally the same as the corresponding predicate returning
`false`, so the model keeps total boolean predicates. -/
structure FileSystem where
  existsSync : JStr → Bool
  isFile : JStr → Bool
  isDirectory : JStr → Bool

/-- `isValidExecutablePath` from main.ts lines 40-65: the path must exist,
carry one of the extensions `.exe`, `.msi`, `.app` (case-insensitively),
its `path.normalize` image must not contain the substring `..`, and it
must be a regular file. -/
def isValidExecutablePath (pl : Platform) (fs : FileSystem)
    (filePath : JStr) : Bool :=
  if !fs.existsSync filePath then false
  else
    let lower := jsToLower filePath
    let hasValidExtension :=
      hasSuffixCh (String.toList ".exe") lower ||
      hasSuffixCh (String.toList ".msi") lower ||
      hasSuffixCh (String.toList ".app") lower
    let hasPathTraversal :=
      containsSub (String.toList "..") (pathNormalize pl filePath)
    hasValidExtension && !hasPathTraversal && fs.isFile filePath

/-- `isValidWorkingDirectory` from main.ts lines 95-118: an absent or
empty directory is valid; otherwise it must exist, its `path.normalize`
image must not contain the substring `..`, and it must be a directory. -/
def isValidWorkingDirectory (pl : Platform) (fs : FileSystem)
    (dirPath : Option JStr) : Bool :=
  match dirPath with
  | none => true
  | some d =>
    if d = [] then true
    else if !fs.existsSync d then false
    else if containsSub (String.toList "..") (pathNormalize pl d) then false
    else fs.isDirectory d

/-! ### The process registry and the launch/exit handlers

main.ts keeps two module-level containers:
`const launchedProcesses = new Set<number>()` and
`const runningEmulators = new Map<string, number>()` (emulatorId to PID).
A JavaScript `Map` is insertion-ordered with one value per key; it is
modelled as an association list together with the insert/replace, delete
and lookup operations of `Map`.  A `Set<number>` is modelled the same
way. -/

/-- The association list modelling `runningEmulators`. -/
abbrev Registry := List (String × Nat)

/-- `Map.prototype.has`. -/
def mapHas (m : Registry) (k : String) : Bool :=
  m.any (fun e => e.1 == k)

/-- `Map.prototype.get` (`undefined` on a missing key). -/
def mapGet? (m : Registry) (k : String) : Option Nat :=
  (m.find? (fun e => e.1 == k)).map Prod.snd

/-- `Map.prototype.set`: replace in place if the key is present, append
otherwise. -/
def mapSet (m : Registry) (k : String) (v : Nat) : Registry :=
  if mapHas m k then m.map (fun e => if e.1 = k then (k, v) else e)
  else m ++ [(k, v)]

/-- `Map.prototype.delete`. -/
def mapDelete (m : Registry) (k : String) : Registry :=
  m.filter (fun e => e.1 != k)

/-- `Set.prototype.add`. -/
def setAdd (s : List Nat) (x : Nat) : List Nat :=
  if x ∈ s then s else s ++ [x]

/-- `Set.prototype.delete`. -/
def setDelete (s : List Nat) (x : Nat) : List Nat :=
  s.filter (fun y => y != x)

/-- The mutable state of main.ts that the process handlers touch:
the launched-PID set, the emulator registry, whether
`mainWindow && !mainWindow.isDestroyed()` holds, the `emulator-stopped`
notifications sent to the renderer so far, and the log of
`child_process.spawn` invocations (executable and sanitized argument
list), recording how often and with what the spawn primitive was
invoked. -/
structure MainState where
  launchedProcesses : List Nat
  runningEmulators : Registry
  mainWindowLive : Bool
  notifications : List String
  spawnLog : List (JStr × List JStr)
deriving DecidableEq, Repr

/-- The state at module load: both containers empty, nothing spawned or
notified, and the main window present. -/
def initState : MainState where
  launchedProcesses := []
  runningEmulators := []
  mainWindowLive := true
  notifications := []
  spawnLog := []

/-- The value resolved by the `process:launch-emulator` IPC handler:
`{ success, pid?, error?, isAlreadyRunning? }`, with the absent fields
`none`/`false`. -/
structure LaunchResult where
  success : Bool
  pid : Option Nat := none
  error : Option String := none
  isAlreadyRunning : Bool := false
deriving DecidableEq, Repr

/-- What the `child_process.spawn` call does on a given invocation:
either it throws synchronously (caught by the handler's `try`/`catch`),
or it returns a child handle whose `pid` is a number, or `undefined` when
the process could not be spawned. -/
inductive SpawnBehavior where
  | throwsErr (msg : String) : SpawnBehavior
  | child (pid : Option Nat) : SpawnBehavior
deriving DecidableEq, Repr

/-- The duplicate-launch message of main.ts line 343. -/
def alreadyRunningMsg : String :=
  "This emulator is already running. Close it first to launch again."

/-- The message of the error thrown on executable validation failure
(main.ts lines 350-352), returned through the handler's catch. -/
def invalidExecMsg : String :=
  "Invalid executable path: Path does not exist, has invalid extension, or contains path traversal"

/-- The message of the error thrown on working-directory validation
failure (main.ts lines 356-358), returned through the handler's catch. -/
def invalidWorkdirMsg : String :=
  "Invalid working directory: Directory does not exist or contains path traversal"

/-- JavaScript truthiness of `child.pid : number | undefined`
(`undefined` and `0` are falsy). -/
def pidTruthy : Option Nat → Bool
  | none => false
  | some p => p != 0

/-- The `process:launch-emulator` IPC handler (main.ts lines 330-429):
duplicate check against `runningEmulators`, path validation (a validation
failure throws and is converted by the `catch` into a
`{ success: false, error }` result), argument sanitization, the spawn
call, registration of a truthy pid in both containers, and the
`{ success: true, pid }` result.  A synchronous spawn throw is likewise
absorbed by the `catch`.  The per-child `exit` listener it installs is
modelled by `exitHandler` below. -/
def launchEmulator (pl : Platform) (fs : FileSystem) (st : MainState)
    (emulatorId : String) (executablePath : JStr) (args : JStr)
    (workingDirectory : Option JStr) (sb : SpawnBehavior) :
    LaunchResult × MainState :=
  if mapHas st.runningEmulators emulatorId then
    ({ success := false, error := some alreadyRunningMsg,
       isAlreadyRunning := true }, st)
  else if !isValidExecutablePath pl fs executablePath then
    ({ success := false, error := some invalidExecMsg }, st)
  else if !isValidWorkingDirectory pl fs workingDirectory then
    ({ success := false, error := some invalidWorkdirMsg }, st)
  else
    let processArgs := sanitizeArguments args
    match sb with
    | .throwsErr msg =>
      ({ success := false, error := some msg },
       { st with spawnLog := st.spawnLog ++ [(executablePath, processArgs)] })
    | .child pid =>
      let st1 :=
        { st with spawnLog := st.spawnLog ++ [(executablePath, processArgs)] }
      let st2 :=
        match pid with
        | some p =>
          if p = 0 then st1
          else
            { st1 with
              launchedProcesses := setAdd st1.launchedProcesses p,
              runningEmulators := mapSet st1.runningEmulators emulatorId p }
        | none => st1
      ({ success := true, pid := pid }, st2)

/-- The per-child `exit` listener installed at launch (main.ts lines
397-410), with the closure-captured `emulatorId` and `child.pid`: under
the `if (child.pid)` truthiness guard it deletes the pid from
`launchedProcesses`, deletes the emulator from `runningEmulators`, and
sends one `emulator-stopped` notification carrying the emulatorId if the
main window exists and is not destroyed.  The exit code and signal are
only logged and are not passed on. -/
def exitHandler (st : MainState) (emulatorId : String)
    (childPid : Option Nat) : MainState :=
  match childPid with
  | none => st
  | some p =>
    if p = 0 then st
    else
      let st1 :=
        { st with
          launchedProcesses := setDelete st.launchedProcesses p,
          runningEmulators := mapDelete st.runningEmulators emulatorId }
      if st1.mainWindowLive then
        { st1 with notifications := st1.notifications ++ [emulatorId] }
      else st1

/-- The `process:is-emulator-running` IPC handler (main.ts lines
432-436): `{ isRunning, pid }` looked up in `runningEmulators`. -/
def isEmulatorRunning (st : MainState) (emulatorId : String) :
    Bool × Option Nat :=
  (mapHas st.runningEmulators emulatorId,
   mapGet? st.runningEmulators emulatorId)

/-- The events a single-threaded caller can feed the subsystem: a launch
request through the IPC handler, or the firing of the exit listener of a
child spawned earlier (its captured `emulatorId` and `child.pid`).  Exit
events are over-approximated: the theorems hold for exit callbacks with
arbitrary captured values, which includes every callback a real run can
register. -/
inductive Event where
  | launch (emulatorId : String) (executablePath : JStr) (args : JStr)
      (workingDirectory : Option JStr) (sb : SpawnBehavior) : Event
  | procExit (emulatorId : String) (childPid : Option Nat) : Event

/-- Apply one event to the state. -/
def applyEvent (pl : Platform) (fs : FileSystem) (st : MainState) :
    Event → MainState
  | .launch id exe args wd sb => (launchEmulator pl fs st id exe args wd sb).2
  | .procExit id pid => exitHandler st id pid

/-- Run a sequence of events from the module-load state. -/
def runTrace (pl : Platform) (fs : FileSystem) (events : List Event) :
    MainState :=
  events.foldl (applyEvent pl fs) initState

/-! ### Concrete instances used by counterexamples and witnesses -/

/-- A file system on which every path exists and is a regular file. -/
def fsAllFiles : FileSystem where
  existsSync := fun _ => true
  isFile := fun _ => true
  isDirectory := fun _ => false

/-- A file system on which every path exists and is a directory. -/
def fsAllDirs : FileSystem where
  existsSync := fun _ => true
  isFile := fun _ => false
  isDirectory := fun _ => true

/-- A file system on which no path exists. -/
def fsEmpty : FileSystem where
  existsSync := fun _ => false
  isFile := fun _ => false
  isDirectory := fun _ => false

/-- A traversal-free executable path accepted by the validator on
`fsAllFiles`. -/
def exeOk : JStr := String.toList "/games/app.exe"

/-- A state in which emulator `e1` is registered as running with PID
42. -/
def stE1 : MainState :=
  { initState with runningEmulators := [("e1", 42)] }

/-- A backslash-style path with an interior traversal segment. -/
def trvWinBS : JStr := String.toList "C:\\games\\..\\app.exe"

/-- A forward-slash-style path with an interior traversal segment. -/
def trvWinFS : JStr := String.toList "C:/games/../app.exe"

/-- A posix-style path with an interior traversal segment. -/
def trvPosix : JStr := String.toList "games/../app.app"

/-- A directory path with an interior traversal segment. -/
def trvDir : JStr := String.toList "C:/games/../roms"

/-! ### Registry lemmas -/

theorem mapHas_mapDelete (m : Registry) (k : String) :
    mapHas (mapDelete m k) k = false := by
  simp only [mapHas, mapDelete, List.any_eq_false, List.mem_filter]
  rintro x ⟨hx, hxk⟩
  simpa using hxk

theorem mapGet?_eq_none_of_not_has (m : Registry) (k : String)
    (h : mapHas m k = false) : mapGet? m k = none := by
  simp only [mapHas, List.any_eq_false] at h
  have hf : m.find? (fun e => e.1 == k) = none :=
    List.find?_eq_none.mpr (fun x hx => h x hx)
  simp [mapGet?, hf]

theorem mapGet?_mapDelete (m : Registry) (k : String) :
    mapGet? (mapDelete m k) k = none :=
  mapGet?_eq_none_of_not_has _ _ (mapHas_mapDelete m k)

theorem keys_nodup_mapSet (m : Registry) (k : String) (v : Nat)
    (h : (m.map Prod.fst).Nodup) : ((mapSet m k v).map Prod.fst).Nodup := by
  unfold mapSet
  cases hk : mapHas m k with
  | true =>
    have hkeys :
        (m.map (fun e => if e.1 = k then (k, v) else e)).map Prod.fst =
          m.map Prod.fst := by
      rw [List.map_map]
      refine List.map_congr_left ?_
      intro e _
      by_cases h1 : e.1 = k
      · simp [h1]
      · simp [h1]
    simpa [hk, hkeys] using h
  | false =>
    have hnk : k ∉ m.map Prod.fst := by
      simp only [mapHas, List.any_eq_false] at hk
      simp only [List.mem_map]
      rintro ⟨e, he, hek⟩
      exact hk e he (beq_iff_eq.mpr hek)
    simp [hk, List.nodup_append, h, hnk]

theorem keys_nodup_mapDelete (m : Registry) (k : String)
    (h : (m.map Prod.fst).Nodup) :
    ((mapDelete m k).map Prod.fst).Nodup :=
  List.Nodup.sublist ((List.filter_sublist m).map Prod.fst) h

/-- The registry after a launch is either untouched or extended by
`mapSet` for the launched id. -/
theorem launchEmulator_registry_cases (pl : Platform) (fs : FileSystem)
    (st : MainState) (id : String) (exe args : JStr) (wd : Option JStr)
    (sb : SpawnBehavior) :
    (launchEmulator pl fs st id exe args wd sb).2.runningEmulators =
      st.runningEmulators ∨
    ∃ p, (launchEmulator pl fs st id exe args wd sb).2.runningEmulators =
      mapSet st.runningEmulators id p := by
  unfold launchEmulator
  split
  · left; rfl
  · split
    · left; rfl
    · split
      · left; rfl
      · cases sb with
        | throwsErr msg => left; rfl
        | child pid =>
          cases pid with
          | none => left; rfl
          | some p =>
            by_cases hp : p = 0
            · left; simp [hp]
            · right
              refine ⟨p, ?_⟩
              simp [hp]

/-- The registry after an exit callback is either untouched or shrunk by
`mapDelete` for the captured id. -/
theorem exitHandler_registry_cases (st : MainState) (id : String)
    (pid : Option Nat) :
    (exitHandler st id pid).runningEmulators = st.runningEmulators ∨
    (exitHandler st id pid).runningEmulators =
      mapDelete st.runningEmulators id := by
  unfold exitHandler
  cases pid with
  | none => left; rfl
  | some p =>
    by_cases hp : p = 0
    · left; simp [hp]
    · right
      by_cases hw : st.mainWindowLive = true <;> simp [hp, hw]

theorem applyEvent_keys_nodup (pl : Platform) (fs : FileSystem)
    (st : MainState) (e : Event)
    (h : (st.runningEmulators.map Prod.fst).Nodup) :
    ((applyEvent pl fs st e).runningEmulators.map Prod.fst).Nodup := by
  cases e with
  | launch id exe args wd sb =>
    rcases launchEmulator_registry_cases pl fs st id exe args wd sb with
      hc | ⟨p, hc⟩
    · show ((launchEmulator pl fs st id exe args wd sb).2.runningEmulators.map
          Prod.fst).Nodup
      rw [hc]; exact h
    · show ((launchEmulator pl fs st id exe args wd sb).2.runningEmulators.map
          Prod.fst).Nodup
      rw [hc]; exact keys_nodup_mapSet _ _ _ h
  | procExit id pid =>
    rcases exitHandler_registry_cases st id pid with hc | hc
    · show ((exitHandler st id pid).runningEmulators.map Prod.fst).Nodup
      rw [hc]; exact h
    · show ((exitHandler st id pid).runningEmulators.map Prod.fst).Nodup
      rw [hc]; exact keys_nodup_mapDelete _ _ h

/-- After any event sequence the registry keys are pairwise distinct. -/
theorem runTrace_keys_nodup (pl : Platform) (fs : FileSystem)
    (events : List Event) :
    ((runTrace pl fs events).runningEmulators.map Prod.fst).Nodup := by
  have main : ∀ (es : List Event) (st : MainState),
      (st.runningEmulators.map Prod.fst).Nodup →
      (((es.foldl (applyEvent pl fs) st)).runningEmulators.map
        Prod.fst).Nodup := by
    intro es
    induction es with
    | nil => intro st h; simpa using h
    | cons e es ih =>
      intro st h
      simpa using ih _ (applyEvent_keys_nodup pl fs st e h)
  simpa [runTrace] using main events initState (by simp [initState])

/-! ### The claims -/

/-- C1: Single-instance invariant — after any sequence of launch calls and
process-exit events from a single-threaded caller, the registry maps every
entryId to at most one OS process handle (its key list has no duplicates),
and a launch issued for an entryId that is currently registered returns
the alreadyRunning result, performs no spawn, and leaves the state — in
particular the spawn log — unchanged. -/
theorem C1_single_instance (pl : Platform) (fs : FileSystem)
    (events : List Event) (id : String) (exe args : JStr) (wd : Option JStr)
    (sb : SpawnBehavior)
    (hrun : mapHas (runTrace pl fs events).runningEmulators id = true) :
    ((runTrace pl fs events).runningEmulators.map Prod.fst).Nodup ∧
    launchEmulator pl fs (runTrace pl fs events) id exe args wd sb =
      ({ success := false, pid := none, error := some alreadyRunningMsg,
         isAlreadyRunning := true }, runTrace pl fs events) :=
  ⟨runTrace_keys_nodup pl fs events, by unfold launchEmulator; simp [hrun]⟩

/-- Witness for C1 at a concrete trace: after launching `e1`
successfully, a second launch for `e1` is rejected without touching the
state. -/
theorem C1_single_instance_witness :
    ((runTrace .posix fsAllFiles
        [Event.launch "e1" exeOk [] none (.child (some 5))]).runningEmulators.map
        Prod.fst).Nodup ∧
    launchEmulator .posix fsAllFiles
        (runTrace .posix fsAllFiles
          [Event.launch "e1" exeOk [] none (.child (some 5))])
        "e1" exeOk [] none (.child (some 6)) =
      ({ success := false, pid := none, error := some alreadyRunningMsg,
         isAlreadyRunning := true },
       runTrace .posix fsAllFiles
         [Event.launch "e1" exeOk [] none (.child (some 5))]) :=
  C1_single_instance .posix fsAllFiles
    [Event.launch "e1" exeOk [] none (.child (some 5))]
    "e1" exeOk [] none (.child (some 6)) (by decide)

/-- C2 counterexample: with `e1` registered under PID 42, the duplicate
launch result signals `isAlreadyRunning` but does not carry the existing
handle — its `pid` field is `undefined`, not 42 — refuting the claim that
the result carries the existing handle. -/
theorem C2_counterexample :
    mapGet? stE1.runningEmulators "e1" = some 42 ∧
    (launchEmulator .posix fsAllFiles stE1 "e1" exeOk [] none
        (.child (some 99))).1.isAlreadyRunning = true ∧
    (launchEmulator .posix fsAllFiles stE1 "e1" exeOk [] none
        (.child (some 99))).1.pid = none := by decide

/-- C2 (amended): if the registry already contains the entryId, launch
returns immediately with `success = false`, `isAlreadyRunning = true` and
a fixed explanatory message; the existing handle is only logged, not
included in the result, and no spawn attempt is made (the state, spawn
log included, is unchanged). -/
theorem C2_duplicate_rejection (pl : Platform) (fs : FileSystem)
    (st : MainState) (id : String) (exe args : JStr) (wd : Option JStr)
    (sb : SpawnBehavior)
    (h : mapHas st.runningEmulators id = true) :
    launchEmulator pl fs st id exe args wd sb =
      ({ success := false, pid := none, error := some alreadyRunningMsg,
         isAlreadyRunning := true }, st) := by
  unfold launchEmulator; simp [h]

/-- Witness for C2 (amended) at a concrete running registry. -/
theorem C2_duplicate_rejection_witness :
    launchEmulator .posix fsAllFiles stE1 "e1" exeOk [] none
        (.child (some 99)) =
      ({ success := false, pid := none, error := some alreadyRunningMsg,
         isAlreadyRunning := true }, stE1) :=
  C2_duplicate_rejection .posix fsAllFiles stE1 "e1" exeOk [] none
    (.child (some 99)) (by decide)

/-- C3: when the exit callback of a tracked process (truthy pid) fires
while the main window is live, the entryId is removed from the registry
and exactly one exit notification carrying that entryId is appended, and
`process:is-emulator-running` afterwards reports not running.  (Claim C9
records that the notification is skipped when no live window exists.) -/
theorem C3_exit_reconciliation (st : MainState) (id : String) (p : Nat)
    (hp : p ≠ 0) (_htracked : mapHas st.runningEmulators id = true)
    (hwin : st.mainWindowLive = true) :
    mapHas (exitHandler st id (some p)).runningEmulators id = false ∧
    (exitHandler st id (some p)).notifications = st.notifications ++ [id] ∧
    isEmulatorRunning (exitHandler st id (some p)) id = (false, none) := by
  have h1 := mapHas_mapDelete st.runningEmulators id
  have h2 := mapGet?_mapDelete st.runningEmulators id
  unfold exitHandler isEmulatorRunning
  simp [hp, hwin, h1, h2]

/-- Witness for C3 at a concrete tracked process. -/
theorem C3_exit_reconciliation_witness :
    mapHas (exitHandler stE1 "e1" (some 42)).runningEmulators "e1" = false ∧
    (exitHandler stE1 "e1" (some 42)).notifications =
      stE1.notifications ++ ["e1"] ∧
    isEmulatorRunning (exitHandler stE1 "e1" (some 42)) "e1" =
      (false, none) :=
  C3_exit_reconciliation stE1 "e1" 42 (by decide) (by decide) (by decide)

/-- C4: when the entryId is not already running and either validator
rejects its input, launch returns `success = false` carrying one of the
two human-readable validation messages, and the state — in particular the
spawn log — is unchanged, so the spawn primitive was never invoked. -/
theorem C4_validation_short_circuits (pl : Platform) (fs : FileSystem)
    (st : MainState) (id : String) (exe args : JStr) (wd : Option JStr)
    (sb : SpawnBehavior)
    (hnotrun : mapHas st.runningEmulators id = false)
    (hval : isValidExecutablePath pl fs exe = false ∨
            isValidWorkingDirectory pl fs wd = false) :
    (launchEmulator pl fs st id exe args wd sb).1.success = false ∧
    ((launchEmulator pl fs st id exe args wd sb).1.error =
        some invalidExecMsg ∨
     (launchEmulator pl fs st id exe args wd sb).1.error =
        some invalidWorkdirMsg) ∧
    (launchEmulator pl fs st id exe args wd sb).2 = st := by
  unfold launchEmulator
  cases hexe : isValidExecutablePath pl fs exe with
  | false => simp [hnotrun, hexe]
  | true =>
    have hwd : isValidWorkingDirectory pl fs wd = false := by
      rcases hval with h | h
      · rw [hexe] at h; exact absurd h (by simp)
      · exact h
    simp [hnotrun, hexe, hwd]

/-- Witness for C4: a nonexistent executable path is rejected without a
spawn. -/
theorem C4_validation_short_circuits_witness :
    (launchEmulator .posix fsEmpty initState "e1" exeOk [] none
        (.child (some 5))).1.success = false ∧
    ((launchEmulator .posix fsEmpty initState "e1" exeOk [] none
        (.child (some 5))).1.error = some invalidExecMsg ∨
     (launchEmulator .posix fsEmpty initState "e1" exeOk [] none
        (.child (some 5))).1.error = some invalidWorkdirMsg) ∧
    (launchEmulator .posix fsEmpty initState "e1" exeOk [] none
        (.child (some 5))).2 = initState :=
  C4_validation_short_circuits .posix fsEmpty initState "e1" exeOk [] none
    (.child (some 5)) (by decide) (Or.inl (by decide))

/-- C5: failure containment — a synchronous spawn throw is caught and
converted into a `success = false` result carrying the underlying error
message, with no mutation of the tracking containers; and every launch
invocation whatsoever resolves into a structured result: either success,
or failure with an error message present.  No exception crosses the
handler boundary (the handler is a total function into results). -/
theorem C5_failure_containment (pl : Platform) (fs : FileSystem)
    (st : MainState) (id : String) (exe args : JStr) (wd : Option JStr)
    (msg : String) (st2 : MainState) (id2 : String) (exe2 args2 : JStr)
    (wd2 : Option JStr) (sb2 : SpawnBehavior)
    (hnotrun : mapHas st.runningEmulators id = false)
    (hexe : isValidExecutablePath pl fs exe = true)
    (hwd : isValidWorkingDirectory pl fs wd = true) :
    (launchEmulator pl fs st id exe args wd (.throwsErr msg) =
      ({ success := false, pid := none, error := some msg,
         isAlreadyRunning := false },
       { st with
           spawnLog := st.spawnLog ++ [(exe, sanitizeArguments args)] })) ∧
    ((launchEmulator pl fs st2 id2 exe2 args2 wd2 sb2).1.success = true ∨
     ((launchEmulator pl fs st2 id2 exe2 args2 wd2 sb2).1.success = false ∧
      ((launchEmulator pl fs st2 id2 exe2 args2 wd2 sb2).1.error).isSome =
        true)) := by
  constructor
  · unfold launchEmulator; simp [hnotrun, hexe, hwd]
  · unfold launchEmulator
    cases h1 : mapHas st2.runningEmulators id2 with
    | true => right; simp
    | false =>
      cases h2 : isValidExecutablePath pl fs exe2 with
      | false => right; simp
      | true =>
        cases h3 : isValidWorkingDirectory pl fs wd2 with
        | false => right; simp
        | true =>
          cases sb2 with
          | throwsErr m => right; simp
          | child pid => left; simp

/-- Witness for C5 at concrete inputs: a spawn throw is contained, and a
launch with a child handle resolves into a structured result. -/
theorem C5_failure_containment_witness :
    (launchEmulator .posix fsAllFiles initState "e1" exeOk [] none
        (.throwsErr "spawn EACCES") =
      ({ success := false, pid := none, error := some "spawn EACCES",
         isAlreadyRunning := false },
       { initState with
           spawnLog := initState.spawnLog ++ [(exeOk, sanitizeArguments [])] })) ∧
    ((launchEmulator .posix fsAllFiles initState "e2" exeOk [] none
        (.child (some 3))).1.success = true ∨
     ((launchEmulator .posix fsAllFiles initState "e2" exeOk [] none
        (.child (some 3))).1.success = false ∧
      ((launchEmulator .posix fsAllFiles initState "e2" exeOk [] none
        (.child (some 3))).1.error).isSome = true)) :=
  C5_failure_containment .posix fsAllFiles initState "e1" exeOk [] none
    "spawn EACCES" initState "e2" exeOk [] none (.child (some 3))
    (by decide) (by decide) (by decide)

/-- C9: the exit callback of a tracked (truthy-pid) child always removes
the pid from the launched set and the entryId from the registry; the exit
notification is appended exactly when the main window exists and is not
destroyed, and is skipped silently otherwise. -/
theorem C9_exit_cleanup (st : MainState) (id : String) (p : Nat)
    (hp : p ≠ 0) :
    (exitHandler st id (some p)).launchedProcesses =
      setDelete st.launchedProcesses p ∧
    (exitHandler st id (some p)).runningEmulators =
      mapDelete st.runningEmulators id ∧
    (exitHandler st id (some p)).notifications =
      (if st.mainWindowLive then st.notifications ++ [id]
       else st.notifications) := by
  unfold exitHandler
  by_cases hw : st.mainWindowLive <;> simp [hp, hw]

/-- Witness for C9 on a destroyed main window: cleanup happens, no
notification is emitted. -/
theorem C9_exit_cleanup_witness :
    (exitHandler { stE1 with mainWindowLive := false } "e1"
        (some 42)).launchedProcesses =
      setDelete { stE1 with mainWindowLive := false }.launchedProcesses 42 ∧
    (exitHandler { stE1 with mainWindowLive := false } "e1"
        (some 42)).runningEmulators =
      mapDelete { stE1 with mainWindowLive := false }.runningEmulators "e1" ∧
    (exitHandler { stE1 with mainWindowLive := false } "e1"
        (some 42)).notifications =
      (if { stE1 with mainWindowLive := false }.mainWindowLive then
        { stE1 with mainWindowLive := false }.notifications ++ ["e1"]
       else { stE1 with mainWindowLive := false }.notifications) :=
  C9_exit_cleanup { stE1 with mainWindowLive := false } "e1" 42 (by decide)

/-- C10: a spawn that returns a child whose pid is `undefined` still
yields `{ success: true, pid: undefined }`; no registry entry is created,
`isRunning` stays false, and the exit callback of that child is a no-op,
so no exit notification is ever emitted for that launch. -/
theorem C10_success_without_tracking (pl : Platform) (fs : FileSystem)
    (st : MainState) (id : String) (exe args : JStr) (wd : Option JStr)
    (hnotrun : mapHas st.runningEmulators id = false)
    (hexe : isValidExecutablePath pl fs exe = true)
    (hwd : isValidWorkingDirectory pl fs wd = true) :
    launchEmulator pl fs st id exe args wd (.child none) =
      ({ success := true, pid := none, error := none,
         isAlreadyRunning := false },
       { st with
           spawnLog := st.spawnLog ++ [(exe, sanitizeArguments args)] }) ∧
    isEmulatorRunning
        (launchEmulator pl fs st id exe args wd (.child none)).2 id =
      (false, none) ∧
    exitHandler (launchEmulator pl fs st id exe args wd (.child none)).2 id
        none =
      (launchEmulator pl fs st id exe args wd (.child none)).2 := by
  have heq : launchEmulator pl fs st id exe args wd (.child none) =
      ({ success := true, pid := none, error := none,
         isAlreadyRunning := false },
       { st with
           spawnLog := st.spawnLog ++ [(exe, sanitizeArguments args)] }) := by
    unfold launchEmulator; simp [hnotrun, hexe, hwd]
  refine ⟨heq, ?_, ?_⟩
  · rw [heq]
    unfold isEmulatorRunning
    simp [hnotrun, mapGet?_eq_none_of_not_has _ _ hnotrun]
  · rw [heq]
    rfl

/-- Witness for C10 at concrete inputs. -/
theorem C10_success_without_tracking_witness :
    launchEmulator .posix fsAllFiles initState "e1" exeOk [] none
        (.child none) =
      ({ success := true, pid := none, error := none,
         isAlreadyRunning := false },
       { initState with
           spawnLog := initState.spawnLog ++
             [(exeOk, sanitizeArguments [])] }) ∧
    isEmulatorRunning
        (launchEmulator .posix fsAllFiles initState "e1" exeOk [] none
          (.child none)).2 "e1" =
      (false, none) ∧
    exitHandler
        (launchEmulator .posix fsAllFiles initState "e1" exeOk [] none
          (.child none)).2 "e1" none =
      (launchEmulator .posix fsAllFiles initState "e1" exeOk [] none
        (.child none)).2 :=
  C10_success_without_tracking .posix fsAllFiles initState "e1" exeOk []
    none (by decide) (by decide) (by decide)

/-! ### C6: traversal rejection -/

/-- C6 counterexample: the validators check the substring `..` on the
`path.normalize` image, and normalization resolves interior traversal
segments away, so paths that contain a parent-directory traversal segment
— in backslash style, forward-slash style, and on the posix flavour — are
accepted whenever the file system resolves them, refuting the claim that
every such path is rejected. -/
theorem C6_counterexample :
    (String.toList ".." ∈ splitSeps .win32 trvWinBS ∧
     isValidExecutablePath .win32 fsAllFiles trvWinBS = true) ∧
    (String.toList ".." ∈ splitSeps .win32 trvWinFS ∧
     isValidExecutablePath .win32 fsAllFiles trvWinFS = true) ∧
    (String.toList ".." ∈ splitSeps .posix trvPosix ∧
     isValidExecutablePath .posix fsAllFiles trvPosix = true) ∧
    (String.toList ".." ∈ splitSeps .win32 trvDir ∧
     isValidWorkingDirectory .win32 fsAllDirs (some trvDir) = true) := by
  decide

/-- C6 (amended): the validators return false for every path whose
`path.normalize` image still contains the substring `..` — in particular
every path with a leading parent-directory traversal — on either
platform flavour and for any file-system state; interior traversal
segments are resolved away by normalization before the check and do not
cause rejection. -/
theorem C6_traversal_rejection (pl : Platform) (fs : FileSystem)
    (fp d : JStr)
    (hfp : containsSub (String.toList "..") (pathNormalize pl fp) = true)
    (hd : containsSub (String.toList "..") (pathNormalize pl d) = true) :
    isValidExecutablePath pl fs fp = false ∧
    isValidWorkingDirectory pl fs (some d) = false := by
  have hfp2 : containsSub ['.', '.'] (pathNormalize pl fp) = true := hfp
  have hd2 : containsSub ['.', '.'] (pathNormalize pl d) = true := hd
  constructor
  · unfold isValidExecutablePath
    cases he : fs.existsSync fp with
    | false => simp [he]
    | true => simp [he, hfp2]
  · unfold isValidWorkingDirectory
    by_cases hd0 : d = []
    · subst hd0
      cases pl
      · exact absurd hd (by decide)
      · exact absurd hd (by decide)
    · cases he : fs.existsSync d with
      | false => simp [hd0, he]
      | true => simp [hd0, he, hd2]

/-- Witness for C6 (amended): a leading traversal segment survives
normalization and is rejected by both validators. -/
theorem C6_traversal_rejection_witness :
    isValidExecutablePath .win32 fsAllFiles (String.toList "../app.exe") =
      false ∧
    isValidWorkingDirectory .win32 fsAllFiles
        (some (String.toList "../roms")) = false :=
  C6_traversal_rejection .win32 fsAllFiles (String.toList "../app.exe")
    (String.toList "../roms") (by decide) (by decide)

/-! ### C7: the sanitizer contract -/

/-- C7 counterexample: the source splits on the space character only
(`args.split(" ")`), not on all whitespace: a tab-separated input stays a
single token, while the claimed whitespace-splitting pipeline produces
two, refuting the claim as stated. -/
theorem C7_counterexample :
    sanitizeArguments (String.toList "a\tb") = [String.toList "a\tb"] ∧
    sanitizeArgumentsClaimC7 (String.toList "a\tb") =
      [String.toList "a", String.toList "b"] ∧
    sanitizeArguments (String.toList "a\tb") ≠
      sanitizeArgumentsClaimC7 (String.toList "a\tb") := by decide

/-- C7 (amended): for every input string, `sanitizeArguments` splits on
the space character (U+0020), trims each token, drops empty tokens, drops
every token matching the denylist, and caps the result at 50 tokens; it
is a total function, so it never throws. -/
theorem C7_sanitize_contract (s : JStr) :
    sanitizeArguments s = sanitizeArgumentsSpaceSpec s ∧
    (sanitizeArguments s).length ≤ 50 := by
  constructor
  · by_cases hs : s = []
    · subst hs; rfl
    · simp [sanitizeArguments, sanitizeArgumentsSpaceSpec, hs]
  · by_cases hs : s = []
    · subst hs; simp [sanitizeArguments]
    · unfold sanitizeArguments
      rw [if_neg hs]
      exact List.length_take_le 50 _

/-! ### C8: idempotence of the sanitizer -/

theorem splitOnSpace_nil : splitOnSpace [] = [[]] := rfl

theorem splitOnSpace_cons (c : Char) (cs : JStr) :
    splitOnSpace (c :: cs) =
      (if c = ' ' then [] :: splitOnSpace cs
       else (splitOnSpace cs).modifyHead (fun t => c :: t)) := rfl

theorem splitOnSpace_ne_nil (s : JStr) : splitOnSpace s ≠ [] := by
  induction s with
  | nil => simp [splitOnSpace_nil]
  | cons c cs ih =>
    rw [splitOnSpace_cons]
    by_cases hc : c = ' '
    · simp [hc]
    · rw [if_neg hc]
      rcases h : splitOnSpace cs with _ | ⟨t, ts⟩
      · exact absurd h ih
      · simp

theorem mem_splitOnSpace_no_space (s t : JStr) (ht : t ∈ splitOnSpace s) :
    ' ' ∉ t := by
  induction s generalizing t with
  | nil =>
    simp [splitOnSpace_nil] at ht
    subst ht; simp
  | cons c cs ih =>
    rw [splitOnSpace_cons] at ht
    rcases h : splitOnSpace cs with _ | ⟨u, us⟩
    · exact absurd h (splitOnSpace_ne_nil cs)
    · rw [h] at ht
      by_cases hc : c = ' '
      · rw [if_pos hc] at ht
        rcases List.mem_cons.mp ht with h1 | h1
        · subst h1; simp
        · exact ih t (h ▸ h1)
      · rw [if_neg hc, List.modifyHead_cons] at ht
        rcases List.mem_cons.mp ht with h1 | h1
        · subst h1
          intro hmem
          rcases List.mem_cons.mp hmem with h2 | h2
          · exact hc h2.symm
          · exact ih u (h ▸ List.mem_cons_self u us) h2
        · exact ih t (h ▸ List.mem_cons_of_mem u h1)

theorem splitOnSpace_append_space (t u : JStr) (h : ' ' ∉ t) :
    splitOnSpace (t ++ ' ' :: u) = t :: splitOnSpace u := by
  induction t with
  | nil => rw [List.nil_append, splitOnSpace_cons, if_pos rfl]
  | cons c t ih =>
    have hc : c ≠ ' ' := fun hc => h (hc ▸ List.mem_cons_self c t)
    have ht : ' ' ∉ t := fun hm => h (List.mem_cons_of_mem c hm)
    rw [List.cons_append, splitOnSpace_cons, ih ht, if_neg hc,
      List.modifyHead_cons]

theorem splitOnSpace_no_space (t : JStr) (h : ' ' ∉ t) :
    splitOnSpace t = [t] := by
  induction t with
  | nil => rfl
  | cons c t ih =>
    have hc : c ≠ ' ' := fun hc => h (hc ▸ List.mem_cons_self c t)
    have ht : ' ' ∉ t := fun hm => h (List.mem_cons_of_mem c hm)
    rw [splitOnSpace_cons, if_neg hc, ih ht, List.modifyHead_cons]

theorem splitOnSpace_joinSpace (ts : List JStr) (hne : ts ≠ [])
    (h : ∀ t ∈ ts, ' ' ∉ t) : splitOnSpace (joinSpace ts) = ts := by
  induction ts with
  | nil => exact absurd rfl hne
  | cons t ts ih =>
    cases ts with
    | nil =>
      simp only [joinSpace]
      exact splitOnSpace_no_space t (h t (List.mem_cons_self t []))
    | cons t2 ts2 =>
      simp only [joinSpace]
      rw [splitOnSpace_append_space t (joinSpace (t2 :: ts2))
          (h t (List.mem_cons_self _ _))]
      rw [ih (by simp) (fun x hx => h x (List.mem_cons_of_mem t hx))]

theorem dropWhile_dropWhile (p : Char → Bool) (l : JStr) :
    (l.dropWhile p).dropWhile p = l.dropWhile p := by
  induction l with
  | nil => rfl
  | cons c l ih =>
    by_cases hc : p c = true
    · simp [List.dropWhile_cons, hc, ih]
    · simp [List.dropWhile_cons, hc]

theorem dropTrailingWs_prefix (s : JStr) :
    s = dropTrailingWs s ++ (s.reverse.takeWhile isJsWhitespace).reverse := by
  unfold dropTrailingWs
  rw [← List.reverse_append, List.takeWhile_append_dropWhile,
    List.reverse_reverse]

theorem dropWhile_eq_self_of_head (l : JStr) (p : Char → Bool)
    (h : ∀ c, l.head? = some c → p c = false) : l.dropWhile p = l := by
  cases l with
  | nil => rfl
  | cons c l =>
    have := h c rfl
    simp [List.dropWhile_cons, this]

theorem dropWhile_eq_self_head (l : JStr) (p : Char → Bool)
    (h : l.dropWhile p = l) (c : Char) (hc : l.head? = some c) :
    p c = false := by
  cases l with
  | nil => simp at hc
  | cons a l =>
    simp at hc
    subst hc
    by_cases ha : p a = true
    · rw [List.dropWhile_cons, if_pos ha] at h
      have h1 := (List.dropWhile_sublist (l := l) p).length_le
      have h2 := congrArg List.length h
      simp at h2
      omega
    · simpa using ha

theorem dropTrailingWs_idem (s : JStr) :
    dropTrailingWs (dropTrailingWs s) = dropTrailingWs s := by
  unfold dropTrailingWs
  rw [List.reverse_reverse, dropWhile_dropWhile]

theorem dropWhile_dropTrailingWs (u : JStr)
    (hu : u.dropWhile isJsWhitespace = u) :
    (dropTrailingWs u).dropWhile isJsWhitespace = dropTrailingWs u := by
  cases hd : dropTrailingWs u with
  | nil => rfl
  | cons c v =>
    have hr := dropTrailingWs_prefix u
    rw [hd] at hr
    have hcw : isJsWhitespace c = false := by
      apply dropWhile_eq_self_head u isJsWhitespace hu c
      rw [hr]; rfl
    apply dropWhile_eq_self_of_head
    intro c2 hc2
    simp at hc2
    rw [← hc2]
    exact hcw

theorem jsTrim_idem (s : JStr) : jsTrim (jsTrim s) = jsTrim s := by
  unfold jsTrim
  rw [dropWhile_dropTrailingWs (s.dropWhile isJsWhitespace)
      (dropWhile_dropWhile isJsWhitespace s),
    dropTrailingWs_idem]

theorem mem_jsTrim (c : Char) (s : JStr) (h : c ∈ jsTrim s) : c ∈ s := by
  unfold jsTrim dropTrailingWs at h
  rw [List.mem_reverse] at h
  have h1 := (List.dropWhile_sublist isJsWhitespace).subset h
  rw [List.mem_reverse] at h1
  exact (List.dropWhile_sublist isJsWhitespace).subset h1

theorem mem_sanitizeArguments (s t : JStr) (ht : t ∈ sanitizeArguments s) :
    jsTrim t = t ∧ decide (0 < t.length) = true ∧
    (!isDangerousArg t) = true ∧ ' ' ∉ t := by
  unfold sanitizeArguments at ht
  by_cases hs : s = []
  · rw [if_pos hs] at ht; simp at ht
  · rw [if_neg hs] at ht
    have ht1 := List.mem_of_mem_take ht
    have ht2 := List.mem_filter.mp ht1
    have ht3 := List.mem_filter.mp ht2.1
    rcases List.mem_map.mp ht3.1 with ⟨u, hu, rfl⟩
    refine ⟨jsTrim_idem u, ht3.2, ht2.2, ?_⟩
    intro hmem
    exact mem_splitOnSpace_no_space s u hu (mem_jsTrim ' ' u hmem)

theorem sanitizeArguments_length_le (s : JStr) :
    (sanitizeArguments s).length ≤ 50 := by
  unfold sanitizeArguments
  by_cases hs : s = []
  · simp [hs]
  · rw [if_neg hs]
    exact List.length_take_le 50 _

theorem list_map_eq_self (f : JStr → JStr) (l : List JStr)
    (h : ∀ a ∈ l, f a = a) : l.map f = l := by
  induction l with
  | nil => rfl
  | cons a l ih =>
    rw [List.map_cons, h a (List.mem_cons_self a l),
      ih (fun x hx => h x (List.mem_cons_of_mem a hx))]

/-- C8: sanitization is idempotent — sanitizing the space-rejoined output
of `sanitizeArguments` returns that output unchanged, for every input
string. -/
theorem C8_sanitize_idempotent (s : JStr) :
    sanitizeArguments (joinSpace (sanitizeArguments s)) =
      sanitizeArguments s := by
  rcases hts : sanitizeArguments s with _ | ⟨t, ts⟩
  · rfl
  · have hmem : ∀ x ∈ t :: ts, jsTrim x = x ∧
        decide (0 < x.length) = true ∧ (!isDangerousArg x) = true ∧
        ' ' ∉ x := by
      intro x hx
      exact mem_sanitizeArguments s x (hts ▸ hx)
    have htne : t ≠ [] := by
      have h0 := (hmem t (List.mem_cons_self t ts)).2.1
      simp only [decide_eq_true_eq] at h0
      exact List.length_pos.mp h0
    have hjoin_ne : joinSpace (t :: ts) ≠ [] := by
      cases ts with
      | nil => simpa [joinSpace] using htne
      | cons t2 ts2 => simp [joinSpace]
    have hsplit : splitOnSpace (joinSpace (t :: ts)) = t :: ts :=
      splitOnSpace_joinSpace (t :: ts) (by simp)
        (fun x hx => (hmem x hx).2.2.2)
    have hmap : (t :: ts).map jsTrim = t :: ts :=
      list_map_eq_self jsTrim (t :: ts) (fun a ha => (hmem a ha).1)
    have hf1 : (t :: ts).filter (fun arg => decide (0 < arg.length)) =
        t :: ts :=
      List.filter_eq_self.mpr (fun a ha => (hmem a ha).2.1)
    have hf2 : (t :: ts).filter (fun arg => !isDangerousArg arg) =
        t :: ts :=
      List.filter_eq_self.mpr (fun a ha => (hmem a ha).2.2.1)
    have hlen : (t :: ts).length ≤ 50 :=
      hts ▸ sanitizeArguments_length_le s
    unfold sanitizeArguments
    rw [if_neg hjoin_ne, hsplit, hmap, hf1, hf2,
      List.take_of_length_le hlen]

end Velocity
